import Mathlib

set_option maxRecDepth 8000

/-!
Verification of the dhan-rs live market-feed subsystem.

Part 1 embeds the binary packet codec of `src/ws/market_feed.rs` and the
multi-connection feed manager of `src/ws/manager.rs` as executable Lean
definitions.  Bytes are natural numbers below 256 held in a `List Nat`;
machine integers are `Nat`/`Int` with explicit two-complement conversion;
`f32` fields are kept as their raw little-endian 32-bit patterns (the Rust
code only reinterprets bytes via `from_le_bytes`, it never computes with
the floats).  Rust functions that can panic on an out-of-bounds slice
index return a `PResult` with a distinguished `outOfBounds` outcome, so
that panic-freedom is a provable statement.

Part 2 states and proves the properties.
-/

-- ===========================================================================
-- Part 1a.  Codec data model (src/ws/market_feed.rs)
-- ===========================================================================

/-- Outcome of a Rust function returning `Result` whose body may also panic
on an out-of-bounds slice index.  `err` carries the message of
`DhanError::InvalidArgument`; `outOfBounds` marks the panic. -/
inductive PResult (α : Type) where
  | ok : α → PResult α
  | err : String → PResult α
  | outOfBounds : PResult α
deriving Repr, DecidableEq

/-- Sequencing of `PResult` computations: errors and panics propagate. -/
def PResult.bind {α β : Type} : PResult α → (α → PResult β) → PResult β
  | .ok a, f => f a
  | .err s, _ => .err s
  | .outOfBounds, _ => .outOfBounds

instance : Monad PResult where
  pure := PResult.ok
  bind := PResult.bind

/-- Byte of `data` at index `i` (only consulted in-bounds by the readers). -/
def byteAt (data : List Nat) (i : Nat) : Nat := data.getD i 0

/-- Little-endian unsigned value of `n` consecutive bytes starting at `off`. -/
def leVal (data : List Nat) (off : Nat) : Nat → Nat
  | 0 => 0
  | n + 1 => byteAt data off + 256 * leVal data (off + 1) n

/-- Reinterpret a `w`-bit unsigned value as a two-complement signed integer,
as Rust `iN::from_le_bytes` does. -/
def toSigned (w : Nat) (n : Nat) : Int :=
  if n < 2 ^ (w - 1) then (n : Int) else (n : Int) - 2 ^ w

/-- Rust `read_u8`: `data[offset]`, panics iff `offset` is out of bounds. -/
def read_u8 (data : List Nat) (off : Nat) : PResult (Nat × Nat) :=
  if off + 1 ≤ data.length then .ok (byteAt data off, off + 1) else .outOfBounds

/-- Rust `read_u16_le`: two bytes at `offset`, little-endian. -/
def read_u16_le (data : List Nat) (off : Nat) : PResult (Nat × Nat) :=
  if off + 2 ≤ data.length then .ok (leVal data off 2, off + 2) else .outOfBounds

/-- Rust `read_i16_le`: two bytes at `offset`, little-endian, signed. -/
def read_i16_le (data : List Nat) (off : Nat) : PResult (Int × Nat) :=
  if off + 2 ≤ data.length then .ok (toSigned 16 (leVal data off 2), off + 2)
  else .outOfBounds

/-- Rust `read_i32_le`: four bytes at `offset`, little-endian, signed. -/
def read_i32_le (data : List Nat) (off : Nat) : PResult (Int × Nat) :=
  if off + 4 ≤ data.length then .ok (toSigned 32 (leVal data off 4), off + 4)
  else .outOfBounds

/-- Rust `read_u32_le`: four bytes at `offset`, little-endian, unsigned. -/
def read_u32_le (data : List Nat) (off : Nat) : PResult (Nat × Nat) :=
  if off + 4 ≤ data.length then .ok (leVal data off 4, off + 4) else .outOfBounds

/-- Rust `read_f32_le`: four bytes at `offset`; the `f32` is kept as its raw
little-endian bit pattern. -/
def read_f32_le (data : List Nat) (off : Nat) : PResult (Nat × Nat) :=
  if off + 4 ≤ data.length then .ok (leVal data off 4, off + 4) else .outOfBounds

/-- `FeedResponseCode` from `src/types/enums.rs`. -/
inductive FeedResponseCode where
  | Index
  | Ticker
  | Quote
  | OI
  | PrevClose
  | MarketStatus
  | Full
  | Disconnect
deriving Repr, DecidableEq

/-- `FeedResponseCode::from_byte`. -/
def FeedResponseCode.from_byte (b : Nat) : Option FeedResponseCode :=
  match b with
  | 1 => some .Index
  | 2 => some .Ticker
  | 4 => some .Quote
  | 5 => some .OI
  | 6 => some .PrevClose
  | 7 => some .MarketStatus
  | 8 => some .Full
  | 50 => some .Disconnect
  | _ => none

/-- `ExchangeSegment` from `src/types/enums.rs`. -/
inductive ExchangeSegment where
  | IDX_I
  | NSE_EQ
  | NSE_FNO
  | NSE_CURRENCY
  | BSE_EQ
  | MCX_COMM
  | BSE_CURRENCY
  | BSE_FNO
deriving Repr, DecidableEq

/-- `ExchangeSegment::from_segment_code`. -/
def ExchangeSegment.from_segment_code (code : Nat) : Option ExchangeSegment :=
  match code with
  | 0 => some .IDX_I
  | 1 => some .NSE_EQ
  | 2 => some .NSE_FNO
  | 3 => some .NSE_CURRENCY
  | 4 => some .BSE_EQ
  | 5 => some .MCX_COMM
  | 7 => some .BSE_CURRENCY
  | 8 => some .BSE_FNO
  | _ => none

/-- `PacketHeader` from `src/ws/market_feed.rs`. -/
structure PacketHeader where
  response_code : FeedResponseCode
  message_length : Nat
  exchange_segment : Option ExchangeSegment
  exchange_segment_raw : Nat
  security_id : Nat
deriving Repr, DecidableEq

/-- `DepthLevel` from `src/ws/market_feed.rs` (prices as raw f32 bits). -/
structure DepthLevel where
  bid_qty : Int
  ask_qty : Int
  bid_orders : Int
  ask_orders : Int
  bid_price : Nat
  ask_price : Nat
deriving Repr, DecidableEq

/-- `MarketFeedEvent` from `src/ws/market_feed.rs` (f32 fields as raw bits;
the field named `open` in Rust is `open_` here because `open` is a Lean
keyword). -/
inductive MarketFeedEvent where
  | Ticker (header : PacketHeader) (ltp : Nat) (ltt : Int)
  | PrevClose (header : PacketHeader) (prev_close : Nat) (prev_oi : Int)
  | Quote (header : PacketHeader) (ltp : Nat) (last_qty : Int) (ltt : Int)
      (atp : Nat) (volume : Int) (total_sell_qty : Int) (total_buy_qty : Int)
      (open_ : Nat) (close : Nat) (high : Nat) (low : Nat)
  | OI (header : PacketHeader) (oi : Int)
  | Full (header : PacketHeader) (ltp : Nat) (last_qty : Int) (ltt : Int)
      (atp : Nat) (volume : Int) (total_sell_qty : Int) (total_buy_qty : Int)
      (oi : Int) (oi_day_high : Int) (oi_day_low : Int)
      (open_ : Nat) (close : Nat) (high : Nat) (low : Nat)
      (depth : List DepthLevel)
  | MarketStatus (header : PacketHeader) (raw : List Nat)
  | Index (header : PacketHeader) (raw : List Nat)
  | Disconnect (header : PacketHeader) (reason_code : Int)
deriving Repr, DecidableEq

/-- `parse_header` from `src/ws/market_feed.rs`: parse the 8-byte header. -/
def parse_header (data : List Nat) : PResult PacketHeader :=
  if data.length < 8 then .err "packet too short for header"
  else do
    let (response_code_byte, off) ← read_u8 data 0
    match FeedResponseCode.from_byte response_code_byte with
    | none => .err "unknown feed response code"
    | some response_code => do
      let (message_length, off) ← read_u16_le data off
      let (exchange_segment_raw, off) ← read_u8 data off
      let exchange_segment := ExchangeSegment.from_segment_code exchange_segment_raw
      let (security_id, _off) ← read_u32_le data off
      pure { response_code, message_length, exchange_segment,
             exchange_segment_raw, security_id }

/-- The depth-reading loop of the `Full` branch of `parse_packet`: read `n`
20-byte depth levels starting at `off`. -/
def read_depth_levels (payload : List Nat) : Nat → Nat → PResult (List DepthLevel × Nat)
  | off, 0 => .ok ([], off)
  | off, n + 1 => do
    let (bid_qty, off) ← read_i32_le payload off
    let (ask_qty, off) ← read_i32_le payload off
    let (bid_orders, off) ← read_i16_le payload off
    let (ask_orders, off) ← read_i16_le payload off
    let (bid_price, off) ← read_f32_le payload off
    let (ask_price, off) ← read_f32_le payload off
    let (rest, off) ← read_depth_levels payload off n
    pure (DepthLevel.mk bid_qty ask_qty bid_orders ask_orders bid_price ask_price :: rest, off)

/-- `parse_packet` from `src/ws/market_feed.rs`: parse a complete binary
packet into a `MarketFeedEvent`. -/
def parse_packet (data : List Nat) : PResult MarketFeedEvent := do
  let header ← parse_header data
  let payload := data.drop 8
  match header.response_code with
  | .Ticker =>
    if payload.length < 8 then .err "ticker packet payload too short"
    else do
      let (ltp, off) ← read_f32_le payload 0
      let (ltt, _) ← read_i32_le payload off
      pure (.Ticker header ltp ltt)
  | .PrevClose =>
    if payload.length < 8 then .err "prev close packet payload too short"
    else do
      let (prev_close, off) ← read_f32_le payload 0
      let (prev_oi, _) ← read_i32_le payload off
      pure (.PrevClose header prev_close prev_oi)
  | .Quote =>
    if payload.length < 42 then .err "quote packet payload too short"
    else do
      let (ltp, off) ← read_f32_le payload 0
      let (last_qty, off) ← read_i16_le payload off
      let (ltt, off) ← read_i32_le payload off
      let (atp, off) ← read_f32_le payload off
      let (volume, off) ← read_i32_le payload off
      let (total_sell_qty, off) ← read_i32_le payload off
      let (total_buy_qty, off) ← read_i32_le payload off
      let (open_, off) ← read_f32_le payload off
      let (close, off) ← read_f32_le payload off
      let (high, off) ← read_f32_le payload off
      let (low, _) ← read_f32_le payload off
      pure (.Quote header ltp last_qty ltt atp volume total_sell_qty
        total_buy_qty open_ close high low)
  | .OI =>
    if payload.length < 4 then .err "OI packet payload too short"
    else do
      let (oi, _) ← read_i32_le payload 0
      pure (.OI header oi)
  | .Full =>
    if payload.length < 154 then .err "full packet payload too short"
    else do
      let (ltp, off) ← read_f32_le payload 0
      let (last_qty, off) ← read_i16_le payload off
      let (ltt, off) ← read_i32_le payload off
      let (atp, off) ← read_f32_le payload off
      let (volume, off) ← read_i32_le payload off
      let (total_sell_qty, off) ← read_i32_le payload off
      let (total_buy_qty, off) ← read_i32_le payload off
      let (oi, off) ← read_i32_le payload off
      let (oi_day_high, off) ← read_i32_le payload off
      let (oi_day_low, off) ← read_i32_le payload off
      let (open_, off) ← read_f32_le payload off
      let (close, off) ← read_f32_le payload off
      let (high, off) ← read_f32_le payload off
      let (low, off) ← read_f32_le payload off
      let (depth, _) ← read_depth_levels payload off 5
      pure (.Full header ltp last_qty ltt atp volume total_sell_qty
        total_buy_qty oi oi_day_high oi_day_low open_ close high low depth)
  | .Disconnect =>
    if payload.length < 2 then .err "disconnect packet payload too short"
    else do
      let (reason_code, _) ← read_i16_le payload 0
      pure (.Disconnect header reason_code)
  | .MarketStatus => pure (.MarketStatus header payload)
  | .Index => pure (.Index header payload)

-- ===========================================================================
-- Part 1b.  Feed manager data model (src/ws/manager.rs)
-- ===========================================================================

/-- `Instrument` from `src/ws/market_feed.rs` (field names as in Rust). -/
structure Instrument where
  ExchangeSegment : String
  SecurityId : String
deriving Repr, DecidableEq

/-- `InstrumentKey` from `src/ws/manager.rs`. -/
structure InstrumentKey where
  exchange_segment : String
  security_id : String
deriving Repr, DecidableEq

/-- `impl From<&Instrument> for InstrumentKey`. -/
def InstrumentKey.fromInstrument (inst : Instrument) : InstrumentKey :=
  { exchange_segment := inst.ExchangeSegment, security_id := inst.SecurityId }

/-- `FeedRequestCode` from `src/types/enums.rs`. -/
inductive FeedRequestCode where
  | Connect
  | Disconnect
  | SubscribeTicker
  | UnsubscribeTicker
  | SubscribeQuote
  | UnsubscribeQuote
  | SubscribeFull
  | UnsubscribeFull
  | SubscribeFullMarketDepth
  | UnsubscribeFullMarketDepth
deriving Repr, DecidableEq

/-- The `u8` discriminant of `FeedRequestCode` (`mode as u8` in Rust). -/
def FeedRequestCode.toU8 : FeedRequestCode → Nat
  | .Connect => 11
  | .Disconnect => 12
  | .SubscribeTicker => 15
  | .UnsubscribeTicker => 16
  | .SubscribeQuote => 17
  | .UnsubscribeQuote => 18
  | .SubscribeFull => 21
  | .UnsubscribeFull => 22
  | .SubscribeFullMarketDepth => 23
  | .UnsubscribeFullMarketDepth => 24

/-- The only `DhanError` variant the manager paths produce. -/
inductive DhanError where
  | InvalidArgument (msg : String)
deriving Repr, DecidableEq

/-- `DhanFeedConfig` from `src/ws/manager.rs`. -/
structure DhanFeedConfig where
  max_connections : Nat
  max_instruments_per_connection : Nat
  enable_raw_frames : Bool
  reconnect_delay_ms : Nat
  parsed_channel_capacity : Nat
  raw_channel_capacity : Nat
  auto_reconnect : Bool
deriving Repr, DecidableEq

/-- `impl Default for DhanFeedConfig`. -/
def DhanFeedConfig.default : DhanFeedConfig :=
  { max_connections := 5, max_instruments_per_connection := 5000,
    enable_raw_frames := false, reconnect_delay_ms := 2000,
    parsed_channel_capacity := 4096, raw_channel_capacity := 4096,
    auto_reconnect := true }

/-- The subscription table `HashMap<InstrumentKey, (Instrument, FeedRequestCode)>`
modelled as an association list. -/
abbrev SubTable := List (InstrumentKey × (Instrument × FeedRequestCode))

/-- Keys of a subscription table. -/
def tableKeys (tbl : SubTable) : List InstrumentKey := tbl.map (fun p => p.1)

/-- `HashMap::insert`: the new binding replaces any binding of the same key. -/
def tableInsert (tbl : SubTable) (k : InstrumentKey) (v : Instrument × FeedRequestCode) : SubTable :=
  (k, v) :: tbl.filter (fun p => p.1 ≠ k)

/-- `HashMap::remove`. -/
def tableRemove (tbl : SubTable) (k : InstrumentKey) : SubTable :=
  tbl.filter (fun p => p.1 ≠ k)

/-- `ManagedConnection` from `src/ws/manager.rs`.  The writer handle and the
task handle are abstracted to presence flags (their contents are transport
objects); everything else is kept. -/
structure ManagedConnection where
  id : Nat
  instruments : SubTable
  reconnect_count : Nat
  writerPresent : Bool
  taskAlive : Bool
deriving Repr, DecidableEq

/-- `DhanFeedManager` from `src/ws/manager.rs`. -/
structure DhanFeedManager where
  config : DhanFeedConfig
  connections : List ManagedConnection
  started : Bool
deriving Repr, DecidableEq

/-- `DhanFeedManager::new`: one empty slot per configured connection,
`reconnect_count` initialised to 0, not started. -/
def DhanFeedManager.new (config : DhanFeedConfig) : DhanFeedManager :=
  { config,
    connections := (List.range config.max_connections).map fun i =>
      { id := i, instruments := [], reconnect_count := 0,
        writerPresent := false, taskAlive := false },
    started := false }

/-- Replace the element at index `j` (identity when out of range). -/
def listModify {α : Type} : List α → Nat → (α → α) → List α
  | [], _, _ => []
  | x :: xs, 0, f => f x :: xs
  | x :: xs, n + 1, f => x :: listModify xs n f

/-- Index of the first minimal element, as Rust `Iterator::min_by_key`
returns the first of several equally minimal elements. -/
def minIdx : List Nat → Option Nat
  | [] => none
  | x :: xs =>
    match minIdx xs with
    | none => some 0
    | some j => if x ≤ xs.getD j 0 then some 0 else some (j + 1)

/-- All subscribed keys across the slots (the `all_keys` index built at the
top of `assign_instruments`; only membership in it is ever consulted). -/
def crossKeys (conns : List ManagedConnection) : List InstrumentKey :=
  (conns.map (fun c => tableKeys c.instruments)).flatten

/-- The `conn_loads` vector of `assign_instruments`. -/
def connLoads (conns : List ManagedConnection) : List Nat :=
  conns.map (fun c => c.instruments.length)

/-- The capacity error message of `assign_instruments`. -/
def capacityMsg (maxPer : Nat) : String :=
  "all connections at capacity (" ++ toString maxPer ++ " instruments each)"

/-- The per-instrument loop of `DhanFeedManager::assign_instruments`:
already-subscribed instruments are skipped, a fresh instrument goes to the
first least-loaded slot unless that slot is at capacity, and the projected
load of the chosen slot is incremented for the rest of the call.  Returns
the request-ordered list of (instrument, slot index) assignments. -/
def assignGo (maxPer : Nat) : List InstrumentKey → List Nat → List Instrument →
    Except DhanError (List (Instrument × Nat))
  | _, _, [] => .ok []
  | allKeys, loads, inst :: rest =>
    let key := InstrumentKey.fromInstrument inst
    if key ∈ allKeys then assignGo maxPer allKeys loads rest
    else
      match minIdx loads with
      | none => .error (.InvalidArgument "no connections available")
      | some best_idx =>
        if maxPer ≤ loads.getD best_idx 0 then
          .error (.InvalidArgument (capacityMsg maxPer))
        else
          match assignGo maxPer (key :: allKeys)
              (loads.set best_idx (loads.getD best_idx 0 + 1)) rest with
          | .error e => .error e
          | .ok tail => .ok ((inst, best_idx) :: tail)

/-- `DhanFeedManager::assign_instruments` (the `mode` parameter of the Rust
function is unused there, `let _ = mode`). -/
def assign_instruments (m : DhanFeedManager) (instruments : List Instrument) :
    Except DhanError (List (Instrument × Nat)) :=
  assignGo m.config.max_instruments_per_connection (crossKeys m.connections)
    (connLoads m.connections) instruments

/-- Rust slice `chunks(n)` (never called with `n = 0` in the source). -/
def chunksOf {α : Type} (n : Nat) (l : List α) : List (List α) :=
  match l with
  | [] => []
  | x :: xs =>
    if _h : n = 0 then []
    else (x :: xs).take n :: chunksOf n ((x :: xs).drop n)
termination_by l.length
decreasing_by
  simp only [List.length_drop, List.length_cons]
  omega

/-- `FeedSubscribeRequest`, the outbound JSON message body. -/
structure FeedSubscribeRequest where
  RequestCode : Nat
  InstrumentCount : Nat
  InstrumentList : List Instrument
deriving Repr, DecidableEq

/-- An outbound message: which connection it is written to and its body. -/
abbrev OutMessage := Nat × FeedSubscribeRequest

/-- The batch of a subscribe call destined for slot `j`, in request order
(the order in which `assign_instruments` pushed into the `Vec`). -/
def batchFor (pairs : List (Instrument × Nat)) (j : Nat) : List Instrument :=
  pairs.filterMap (fun p => if p.2 = j then some p.1 else none)

/-- The messages a subscribe call writes: per slot, the batch chunked to 100
instruments per message (slots listed in index order; the `HashMap`
iteration order of the source is unspecified, the set of messages is not). -/
def subscribeMsgs (nConns : Nat) (mode : FeedRequestCode)
    (pairs : List (Instrument × Nat)) : List OutMessage :=
  ((List.range nConns).map (fun j =>
    (chunksOf 100 (batchFor pairs j)).map
      (fun chunk => (j, FeedSubscribeRequest.mk mode.toU8 chunk.length chunk)))).flatten

/-- The table updates of `subscribe`: each assigned instrument is inserted
into the table of its slot (insertions on distinct slots commute, so the
request-ordered fold equals the per-batch order of the source). -/
def applyAssignments (conns : List ManagedConnection) (mode : FeedRequestCode)
    (pairs : List (Instrument × Nat)) : List ManagedConnection :=
  pairs.foldl (fun cs p =>
    listModify cs p.2 (fun c =>
      { c with instruments :=
          tableInsert c.instruments (InstrumentKey.fromInstrument p.1) (p.1, mode) })) conns

/-- `DhanFeedManager::subscribe`.  Transport writes are modelled as
succeeding (the writer is an external collaborator); all error paths of the
source that precede any state change are kept. -/
def DhanFeedManager.subscribe (m : DhanFeedManager) (instruments : List Instrument)
    (mode : FeedRequestCode) : Except DhanError (DhanFeedManager × List OutMessage) :=
  if m.started = false then
    .error (.InvalidArgument "manager not started — call start() first")
  else
    match assign_instruments m instruments with
    | .error e => .error e
    | .ok pairs =>
      .ok ({ m with connections := applyAssignments m.connections mode pairs },
        subscribeMsgs m.connections.length mode pairs)

/-- Index of the first connection whose table contains `k` (the inner
`for (idx, conn) ... break` of `unsubscribe`). -/
def firstConnWith (conns : List ManagedConnection) (k : InstrumentKey) : Option Nat :=
  conns.findIdx? (fun c => decide (k ∈ tableKeys c.instruments))

/-- The grouping loop of `unsubscribe`: each requested instrument is paired
with the first connection holding its key; instruments held nowhere are
dropped silently. -/
def unsubPairs (conns : List ManagedConnection) (instruments : List Instrument) :
    List (Nat × Instrument) :=
  instruments.filterMap (fun inst =>
    (firstConnWith conns (InstrumentKey.fromInstrument inst)).map (fun idx => (idx, inst)))

/-- The table updates of `unsubscribe`: each grouped instrument is removed
from the table of its connection. -/
def applyUnsub (conns : List ManagedConnection) (pairs : List (Nat × Instrument)) :
    List ManagedConnection :=
  pairs.foldl (fun cs p =>
    listModify cs p.1 (fun c =>
      { c with instruments :=
          tableRemove c.instruments (InstrumentKey.fromInstrument p.2) })) conns

/-- The messages an unsubscribe call writes (chunks of 100 per slot, with
the request code of the `mode` argument). -/
def unsubscribeMsgs (nConns : Nat) (mode : FeedRequestCode)
    (pairs : List (Nat × Instrument)) : List OutMessage :=
  ((List.range nConns).map (fun j =>
    (chunksOf 100 (pairs.filterMap (fun p => if p.1 = j then some p.2 else none))).map
      (fun chunk => (j, FeedSubscribeRequest.mk mode.toU8 chunk.length chunk)))).flatten

/-- `DhanFeedManager::unsubscribe`. -/
def DhanFeedManager.unsubscribe (m : DhanFeedManager) (instruments : List Instrument)
    (mode : FeedRequestCode) : Except DhanError (DhanFeedManager × List OutMessage) :=
  if m.started = false then .error (.InvalidArgument "manager not started")
  else
    .ok ({ m with connections := applyUnsub m.connections (unsubPairs m.connections instruments) },
      unsubscribeMsgs m.connections.length mode (unsubPairs m.connections instruments))

/-- `DhanFeedManager::start`: spawns every slot task (modelled as the writer
and task becoming present); tables are untouched. -/
def DhanFeedManager.start (m : DhanFeedManager) : Except DhanError DhanFeedManager :=
  if m.started = true then .error (.InvalidArgument "manager already started")
  else
    .ok { m with
      connections := m.connections.map (fun c =>
        { c with writerPresent := true, taskAlive := true }),
      started := true }

/-- `DhanFeedManager::shutdown`: close and drop every writer, abort every
task, clear every table, return to the pre-start state. -/
def DhanFeedManager.shutdown (m : DhanFeedManager) : DhanFeedManager :=
  { m with
    connections := m.connections.map (fun c =>
      { c with writerPresent := false, taskAlive := false, instruments := [] }),
    started := false }

/-- State effect on a slot of a successful re-open inside `connection_loop`
(`src/ws/manager.rs` lines 898 to 927): a new session is opened and the
writer handle is replaced under the mutex; the source performs no other
state update there — in particular it contains no update of
`reconnect_count`, to which the spawned task holds no reference. -/
def reopenSlot (c : ManagedConnection) : ManagedConnection :=
  { c with writerPresent := true }

/-- `ConnectionHealth` from `src/ws/manager.rs`. -/
structure ConnectionHealth where
  is_alive : Bool
  id : Nat
  instrument_count : Nat
  reconnect_count : Nat
deriving Repr, DecidableEq

/-- `HealthSummary` from `src/ws/manager.rs`. -/
structure HealthSummary where
  connections : List ConnectionHealth
  total_instruments : Nat
  alive_connections : Nat
deriving Repr, DecidableEq

/-- `DhanFeedManager::health`. -/
def DhanFeedManager.health (m : DhanFeedManager) : HealthSummary :=
  let connections := m.connections.map (fun c =>
    ConnectionHealth.mk c.taskAlive c.id c.instruments.length c.reconnect_count)
  { connections,
    total_instruments := (connections.map (fun c => c.instrument_count)).sum,
    alive_connections := (connections.filter (fun c => c.is_alive)).length }

/-- The operations of the manager API, plus the reconnect event of the
background task. -/
inductive MgrOp where
  | start
  | subscribe (instruments : List Instrument) (mode : FeedRequestCode)
  | unsubscribe (instruments : List Instrument) (mode : FeedRequestCode)
  | shutdown
  | reopen (slot : Nat)

/-- State transition of one operation; a call that returns an error leaves
the state unchanged (every error path of the source returns before any
state mutation). -/
def applyOp (m : DhanFeedManager) : MgrOp → DhanFeedManager
  | .start =>
    match m.start with
    | .ok m2 => m2
    | .error _ => m
  | .subscribe insts mode =>
    match m.subscribe insts mode with
    | .ok (m2, _) => m2
    | .error _ => m
  | .unsubscribe insts mode =>
    match m.unsubscribe insts mode with
    | .ok (m2, _) => m2
    | .error _ => m
  | .shutdown => m.shutdown
  | .reopen j => { m with connections := listModify m.connections j reopenSlot }

/-- Run a sequence of operations from a freshly constructed manager. -/
def runOps (config : DhanFeedConfig) (ops : List MgrOp) : DhanFeedManager :=
  ops.foldl applyOp (DhanFeedManager.new config)

/-- Condition under which the claims say a subscribe call must be rejected,
following the wording of the spec: scanning the request list while keeping
projected loads, some requested instrument is not yet subscribed anywhere
and the least-loaded slot (counting assignments already made in this call)
already holds `maxPer` instruments. -/
def capacityHit (maxPer : Nat) : List InstrumentKey → List Nat → List Instrument → Bool
  | _, _, [] => false
  | allKeys, loads, inst :: rest =>
    let key := InstrumentKey.fromInstrument inst
    if key ∈ allKeys then capacityHit maxPer allKeys loads rest
    else
      match minIdx loads with
      | none => false
      | some best_idx =>
        if maxPer ≤ loads.getD best_idx 0 then true
        else capacityHit maxPer (key :: allKeys)
          (loads.set best_idx (loads.getD best_idx 0 + 1)) rest

/-- Keys of the subscription table of slot `j` (empty when out of range). -/
def keysAt (conns : List ManagedConnection) (j : Nat) : List InstrumentKey :=
  match conns[j]? with
  | some c => tableKeys c.instruments
  | none => []

/-- Config of the capacity-rejection scenario of the spec: one connection
limited to two instruments. -/
def exampleCfgCap : DhanFeedConfig :=
  { max_connections := 1, max_instruments_per_connection := 2,
    enable_raw_frames := false, reconnect_delay_ms := 2000,
    parsed_channel_capacity := 4096, raw_channel_capacity := 4096,
    auto_reconnect := true }

/-- An NSE_EQ instrument with the given security id. -/
def exampleInst (n : String) : Instrument :=
  { ExchangeSegment := "NSE_EQ", SecurityId := n }

/-- A started one-slot manager with an empty table under `exampleCfgCap`. -/
def exampleMgrStarted : DhanFeedManager :=
  { config := exampleCfgCap,
    connections :=
      [{ id := 0, instruments := [], reconnect_count := 0,
         writerPresent := true, taskAlive := true }],
    started := true }

/-- A started two-slot manager holding one instrument (subscribed in Full
mode) on slot 0 and nothing on slot 1. -/
def exampleMgrTwoSlots : DhanFeedManager :=
  { config := DhanFeedConfig.default,
    connections :=
      [{ id := 0,
         instruments := [(InstrumentKey.fromInstrument (exampleInst "5"),
           (exampleInst "5", FeedRequestCode.SubscribeFull))],
         reconnect_count := 0, writerPresent := true, taskAlive := true },
       { id := 1, instruments := [], reconnect_count := 0,
         writerPresent := true, taskAlive := true }],
    started := true }

-- ===========================================================================
-- Part 1c.  Frame handling of the connection loop (src/ws/manager.rs)
-- ===========================================================================

/-- A publication on one of the fan-out channels of a slot. -/
inductive Publication where
  | raw (data : List Nat)
  | parsed (event : MarketFeedEvent)
deriving Repr, DecidableEq

/-- Binary-frame handling of `connection_loop` (`src/ws/manager.rs` lines
833 to 853), as the sequence of publications it performs: when raw frames
are enabled and the raw sender exists the raw bytes are sent first, then
the packet is parsed and, on success, the parsed event is sent (a parse
error is only logged). -/
def handleBinaryFrame (enable_raw : Bool) (raw_present : Bool) (data : List Nat) :
    List Publication :=
  (if enable_raw && raw_present then [Publication.raw data] else []) ++
  (match parse_packet data with
   | .ok event => [Publication.parsed event]
   | _ => [])

-- ===========================================================================
-- Part 2a.  Codec lemmas
-- ===========================================================================

theorem PResult.bind_ok {α β : Type} (a : α) (f : α → PResult β) :
    PResult.bind (.ok a) f = f a := rfl

theorem PResult.bind_err {α β : Type} (s : String) (f : α → PResult β) :
    PResult.bind (.err s) f = .err s := rfl

theorem PResult.bind_oob {α β : Type} (f : α → PResult β) :
    PResult.bind .outOfBounds f = .outOfBounds := rfl

theorem PResult.bind_eq {α β : Type} (x : PResult α) (f : α → PResult β) :
    x >>= f = PResult.bind x f := rfl

theorem PResult.pure_eq {α : Type} (a : α) : (pure a : PResult α) = .ok a := rfl

theorem read_u8_eq {data : List Nat} {off : Nat} (h : off + 1 ≤ data.length) :
    read_u8 data off = .ok (byteAt data off, off + 1) := by
  simp [read_u8, h]

theorem read_u16_le_eq {data : List Nat} {off : Nat} (h : off + 2 ≤ data.length) :
    read_u16_le data off = .ok (leVal data off 2, off + 2) := by
  simp [read_u16_le, h]

theorem read_i16_le_eq {data : List Nat} {off : Nat} (h : off + 2 ≤ data.length) :
    read_i16_le data off = .ok (toSigned 16 (leVal data off 2), off + 2) := by
  simp [read_i16_le, h]

theorem read_i32_le_eq {data : List Nat} {off : Nat} (h : off + 4 ≤ data.length) :
    read_i32_le data off = .ok (toSigned 32 (leVal data off 4), off + 4) := by
  simp [read_i32_le, h]

theorem read_u32_le_eq {data : List Nat} {off : Nat} (h : off + 4 ≤ data.length) :
    read_u32_le data off = .ok (leVal data off 4, off + 4) := by
  simp [read_u32_le, h]

theorem read_f32_le_eq {data : List Nat} {off : Nat} (h : off + 4 ≤ data.length) :
    read_f32_le data off = .ok (leVal data off 4, off + 4) := by
  simp [read_f32_le, h]

/-- Under the 8-byte header check, `parse_header` succeeds exactly when the
response-code byte is known, returning the header read at fixed offsets. -/
theorem parse_header_eq_ok {data : List Nat} (h8 : ¬ data.length < 8)
    {rc : FeedResponseCode} (hrc : FeedResponseCode.from_byte (byteAt data 0) = some rc) :
    parse_header data = .ok
      { response_code := rc, message_length := leVal data 1 2,
        exchange_segment := ExchangeSegment.from_segment_code (byteAt data 3),
        exchange_segment_raw := byteAt data 3, security_id := leVal data 4 4 } := by
  have hb0 : (0 : Nat) + 1 ≤ data.length := by omega
  have hb1 : (1 : Nat) + 2 ≤ data.length := by omega
  have hb3 : (3 : Nat) + 1 ≤ data.length := by omega
  have hb4 : (4 : Nat) + 4 ≤ data.length := by omega
  unfold parse_header
  rw [if_neg h8]
  simp only [PResult.bind_eq, read_u8_eq hb0, PResult.bind_ok, Nat.reduceAdd, hrc,
    read_u16_le_eq hb1, read_u8_eq hb3, read_u32_le_eq hb4, PResult.pure_eq]

/-- When the response-code byte is unknown, `parse_header` errs. -/
theorem parse_header_eq_err {data : List Nat} (h8 : ¬ data.length < 8)
    (hrc : FeedResponseCode.from_byte (byteAt data 0) = none) :
    parse_header data = .err "unknown feed response code" := by
  have hb0 : (0 : Nat) + 1 ≤ data.length := by omega
  unfold parse_header
  rw [if_neg h8]
  simp only [PResult.bind_eq, read_u8_eq hb0, PResult.bind_ok, Nat.reduceAdd, hrc]

/-- `parse_header` never panics. -/
theorem parse_header_no_panic (data : List Nat) : parse_header data ≠ .outOfBounds := by
  by_cases h8 : data.length < 8
  · unfold parse_header
    rw [if_pos h8]
    simp
  · cases hrc : FeedResponseCode.from_byte (byteAt data 0) with
    | none => rw [parse_header_eq_err h8 hrc]; simp
    | some rc => rw [parse_header_eq_ok h8 hrc]; simp

/-- The depth loop succeeds whenever `20 * n` bytes from `off` are in
bounds. -/
theorem read_depth_levels_ok (payload : List Nat) :
    ∀ (n off : Nat), off + 20 * n ≤ payload.length →
      ∃ ds off2, read_depth_levels payload off n = .ok (ds, off2) := by
  intro n
  induction n with
  | zero =>
    intro off _
    exact ⟨[], off, rfl⟩
  | succ k ih =>
    intro off h
    obtain ⟨ds, off2, hds⟩ := ih (off + 20) (by omega)
    have hb1 : off + 4 ≤ payload.length := by omega
    have hb2 : off + 4 + 4 ≤ payload.length := by omega
    have hb3 : off + 4 + 4 + 2 ≤ payload.length := by omega
    have hb4 : off + 4 + 4 + 2 + 2 ≤ payload.length := by omega
    have hb5 : off + 4 + 4 + 2 + 2 + 4 ≤ payload.length := by omega
    have hb6 : off + 4 + 4 + 2 + 2 + 4 + 4 ≤ payload.length := by omega
    have e1 : off + 4 + 4 + 2 + 2 + 4 + 4 = off + 20 := by omega
    have hstep : read_depth_levels payload off (k + 1) = .ok
        (DepthLevel.mk (toSigned 32 (leVal payload off 4))
          (toSigned 32 (leVal payload (off + 4) 4))
          (toSigned 16 (leVal payload (off + 4 + 4) 2))
          (toSigned 16 (leVal payload (off + 4 + 4 + 2) 2))
          (leVal payload (off + 4 + 4 + 2 + 2) 4)
          (leVal payload (off + 4 + 4 + 2 + 2 + 4) 4) :: ds, off2) := by
      simp only [read_depth_levels, PResult.bind_eq, PResult.bind_ok, PResult.pure_eq,
        read_i32_le_eq hb1, read_i32_le_eq hb2, read_i16_le_eq hb3, read_i16_le_eq hb4,
        read_f32_le_eq hb5, read_f32_le_eq hb6, e1, hds]
    exact ⟨_, _, hstep⟩

/-- `parse_packet` never panics: every fixed-offset read of every dispatch
branch is covered by the length check of that branch. -/
theorem parse_packet_no_panic (data : List Nat) : parse_packet data ≠ .outOfBounds := by
  unfold parse_packet
  rw [PResult.bind_eq]
  by_cases h8 : data.length < 8
  · have hh : parse_header data = .err "packet too short for header" := by
      unfold parse_header
      rw [if_pos h8]
    rw [hh]
    simp [PResult.bind]
  · cases hrc : FeedResponseCode.from_byte (byteAt data 0) with
    | none =>
      rw [parse_header_eq_err h8 hrc]
      simp [PResult.bind]
    | some rc =>
      rw [parse_header_eq_ok h8 hrc]
      simp only [PResult.bind_ok]
      cases rc with
      | Ticker =>
        by_cases hp : data.length - 8 < 8
        · simp [hp]
        · have hb0 : (0 : Nat) + 4 ≤ (data.drop 8).length := by simp only [List.length_drop]; omega
          have hb4 : (4 : Nat) + 4 ≤ (data.drop 8).length := by simp only [List.length_drop]; omega
          simp only [List.length_drop, if_neg hp, PResult.bind_eq, PResult.bind_ok, PResult.pure_eq,
            Nat.reduceAdd, read_f32_le_eq hb0, read_i32_le_eq hb4]
          simp
      | PrevClose =>
        by_cases hp : data.length - 8 < 8
        · simp [hp]
        · have hb0 : (0 : Nat) + 4 ≤ (data.drop 8).length := by simp only [List.length_drop]; omega
          have hb4 : (4 : Nat) + 4 ≤ (data.drop 8).length := by simp only [List.length_drop]; omega
          simp only [List.length_drop, if_neg hp, PResult.bind_eq, PResult.bind_ok, PResult.pure_eq,
            Nat.reduceAdd, read_f32_le_eq hb0, read_i32_le_eq hb4]
          simp
      | Quote =>
        by_cases hp : data.length - 8 < 42
        · simp [hp]
        · have hb0 : (0 : Nat) + 4 ≤ (data.drop 8).length := by simp only [List.length_drop]; omega
          have hb4 : (4 : Nat) + 2 ≤ (data.drop 8).length := by simp only [List.length_drop]; omega
          have hb6 : (6 : Nat) + 4 ≤ (data.drop 8).length := by simp only [List.length_drop]; omega
          have hb10 : (10 : Nat) + 4 ≤ (data.drop 8).length := by simp only [List.length_drop]; omega
          have hb14 : (14 : Nat) + 4 ≤ (data.drop 8).length := by simp only [List.length_drop]; omega
          have hb18 : (18 : Nat) + 4 ≤ (data.drop 8).length := by simp only [List.length_drop]; omega
          have hb22 : (22 : Nat) + 4 ≤ (data.drop 8).length := by simp only [List.length_drop]; omega
          have hb26 : (26 : Nat) + 4 ≤ (data.drop 8).length := by simp only [List.length_drop]; omega
          have hb30 : (30 : Nat) + 4 ≤ (data.drop 8).length := by simp only [List.length_drop]; omega
          have hb34 : (34 : Nat) + 4 ≤ (data.drop 8).length := by simp only [List.length_drop]; omega
          have hb38 : (38 : Nat) + 4 ≤ (data.drop 8).length := by simp only [List.length_drop]; omega
          simp only [List.length_drop, if_neg hp, PResult.bind_eq, PResult.bind_ok, PResult.pure_eq,
            Nat.reduceAdd, read_f32_le_eq hb0, read_i16_le_eq hb4, read_i32_le_eq hb6,
            read_f32_le_eq hb10, read_i32_le_eq hb14, read_i32_le_eq hb18,
            read_i32_le_eq hb22, read_f32_le_eq hb26, read_f32_le_eq hb30,
            read_f32_le_eq hb34, read_f32_le_eq hb38]
          simp
      | OI =>
        by_cases hp : data.length - 8 < 4
        · simp [hp]
        · have hb0 : (0 : Nat) + 4 ≤ (data.drop 8).length := by simp only [List.length_drop]; omega
          simp only [List.length_drop, if_neg hp, PResult.bind_eq, PResult.bind_ok, PResult.pure_eq,
            Nat.reduceAdd, read_i32_le_eq hb0]
          simp
      | Full =>
        by_cases hp : data.length - 8 < 154
        · simp [hp]
        · have hb0 : (0 : Nat) + 4 ≤ (data.drop 8).length := by simp only [List.length_drop]; omega
          have hb4 : (4 : Nat) + 2 ≤ (data.drop 8).length := by simp only [List.length_drop]; omega
          have hb6 : (6 : Nat) + 4 ≤ (data.drop 8).length := by simp only [List.length_drop]; omega
          have hb10 : (10 : Nat) + 4 ≤ (data.drop 8).length := by simp only [List.length_drop]; omega
          have hb14 : (14 : Nat) + 4 ≤ (data.drop 8).length := by simp only [List.length_drop]; omega
          have hb18 : (18 : Nat) + 4 ≤ (data.drop 8).length := by simp only [List.length_drop]; omega
          have hb22 : (22 : Nat) + 4 ≤ (data.drop 8).length := by simp only [List.length_drop]; omega
          have hb26 : (26 : Nat) + 4 ≤ (data.drop 8).length := by simp only [List.length_drop]; omega
          have hb30 : (30 : Nat) + 4 ≤ (data.drop 8).length := by simp only [List.length_drop]; omega
          have hb34 : (34 : Nat) + 4 ≤ (data.drop 8).length := by simp only [List.length_drop]; omega
          have hb38 : (38 : Nat) + 4 ≤ (data.drop 8).length := by simp only [List.length_drop]; omega
          have hb42 : (42 : Nat) + 4 ≤ (data.drop 8).length := by simp only [List.length_drop]; omega
          have hb46 : (46 : Nat) + 4 ≤ (data.drop 8).length := by simp only [List.length_drop]; omega
          have hb50 : (50 : Nat) + 4 ≤ (data.drop 8).length := by simp only [List.length_drop]; omega
          obtain ⟨ds, off2, hds⟩ := read_depth_levels_ok (data.drop 8) 5 54 (by simp only [List.length_drop]; omega)
          simp only [List.length_drop, if_neg hp, PResult.bind_eq, PResult.bind_ok, PResult.pure_eq,
            Nat.reduceAdd, read_f32_le_eq hb0, read_i16_le_eq hb4, read_i32_le_eq hb6,
            read_f32_le_eq hb10, read_i32_le_eq hb14, read_i32_le_eq hb18,
            read_i32_le_eq hb22, read_i32_le_eq hb26, read_i32_le_eq hb30,
            read_i32_le_eq hb34, read_f32_le_eq hb38, read_f32_le_eq hb42,
            read_f32_le_eq hb46, read_f32_le_eq hb50, hds]
          simp
      | Disconnect =>
        by_cases hp : data.length - 8 < 2
        · simp [hp]
        · have hb0 : (0 : Nat) + 2 ≤ (data.drop 8).length := by simp only [List.length_drop]; omega
          simp only [List.length_drop, if_neg hp, PResult.bind_eq, PResult.bind_ok, PResult.pure_eq,
            Nat.reduceAdd, read_i16_le_eq hb0]
          simp
      | MarketStatus => simp [PResult.bind]
      | Index => simp [PResult.bind]

-- ===========================================================================
-- Part 2b.  Claim theorems for the codec (C8, C1, C2)
-- ===========================================================================

/-- Claim C8: `parse_packet` is total and panic-free — for every input byte
buffer it returns `Ok` with an event or `Err` with a message; no
fixed-offset read of any dispatch branch can fall outside the buffer,
because each is covered by the preceding length check of its branch
(header 8, then payload at least 8 for Ticker, 8 for PrevClose, 42 for
Quote, 4 for OI, 154 for Full, 2 for Disconnect). -/
theorem parse_packet_total (data : List Nat) :
    (∃ e, parse_packet data = PResult.ok e) ∨ (∃ s, parse_packet data = PResult.err s) := by
  cases h : parse_packet data with
  | ok e => exact Or.inl ⟨e, rfl⟩
  | err s => exact Or.inr ⟨s, rfl⟩
  | outOfBounds => exact absurd h (parse_packet_no_panic data)

/-- Any packet that dispatches to the `Full` branch with fewer than 162
total bytes (payload shorter than 154) is rejected as truncated. -/
theorem full_branch_truncated {data : List Nat} (hb : byteAt data 0 = 8)
    (h8 : ¬ data.length < 8) (hlt : data.length < 162) :
    parse_packet data = .err "full packet payload too short" := by
  have hrc : FeedResponseCode.from_byte (byteAt data 0) = some .Full := by rw [hb]; decide
  unfold parse_packet
  rw [PResult.bind_eq, parse_header_eq_ok h8 hrc]
  simp only [PResult.bind_ok]
  have hp : data.length - 8 < 154 := by omega
  simp [hp]

/-- Claim C1 (counterexample): a binary Full packet (response code byte 8)
of exactly 154 total bytes — 8-byte header plus 146-byte payload — does
not decode successfully as the claim states: `parse_packet` rejects it as
truncated, because the Full branch of the source requires a payload of at
least 154 bytes (its 14 typed fields occupy 54 bytes, not 46, plus 100
bytes of depth). -/
theorem full_packet_154_total_rejected :
    parse_packet (8 :: 154 :: 0 :: 1 :: 0 :: 0 :: 0 :: 0 :: List.replicate 146 0)
        = .err "full packet payload too short"
    ∧ (8 :: 154 :: 0 :: 1 :: 0 :: 0 :: 0 :: 0 :: List.replicate 146 0).length = 154 := by
  constructor
  · decide
  · decide

/-- Claim C1 (amended): the minimum payload length the Full branch of
`parse_packet` accepts is 154 bytes (14 typed fields of 54 bytes plus
5 × 20 bytes of depth), so the minimum total is 162 bytes: every Full
packet shorter than 162 bytes fails as truncated, and a 162-byte Full
packet decodes successfully. -/
theorem full_packet_min_total_162 :
    (∀ data : List Nat, byteAt data 0 = 8 → 8 ≤ data.length → data.length < 162 →
        parse_packet data = .err "full packet payload too short")
    ∧ parse_packet (8 :: 162 :: 0 :: 1 :: 0 :: 0 :: 0 :: 0 :: List.replicate 154 0)
        = .ok (.Full
            { response_code := .Full, message_length := 162,
              exchange_segment := some .NSE_EQ, exchange_segment_raw := 1,
              security_id := 0 }
            0 0 0 0 0 0 0 0 0 0 0 0 0 0
            (List.replicate 5 (DepthLevel.mk 0 0 0 0 0 0))) := by
  constructor
  · intro data hb h8 hlt
    exact full_branch_truncated hb (by omega) hlt
  · decide

/-- Claim C1 (amended, witness): the amended truncation bound applied to
the concrete 161-byte Full packet. -/
theorem full_packet_min_total_162_witness :
    parse_packet (8 :: 161 :: 0 :: 1 :: 0 :: 0 :: 0 :: 0 :: List.replicate 153 0)
        = .err "full packet payload too short" :=
  full_packet_min_total_162.1
    (8 :: 161 :: 0 :: 1 :: 0 :: 0 :: 0 :: 0 :: List.replicate 153 0)
    (by decide) (by decide) (by decide)

/-- Claim C2 (counterexample): decoding the 16-byte packet
`02 10 00 01 00 00 05 35 00 00 48 43 E0 37 A2 65` does not return the
event the claim states.  The claim expects `security_id = 889126145` and
`ltt = 1705641440`, but the little-endian reads give
`security_id = 0x35050000 = 889520128` and
`ltt = 0x65A237E0 = 1705129952` (the claimed decimal values do not match
the hex bytes of the example; `ltp` is indeed the bit pattern
`0x43480000` of `200.0`). -/
theorem ticker_example_claim_refuted :
    parse_packet [2, 16, 0, 1, 0, 0, 5, 53, 0, 0, 72, 67, 224, 55, 162, 101]
      ≠ .ok (.Ticker
          { response_code := .Ticker, message_length := 16,
            exchange_segment := some .NSE_EQ, exchange_segment_raw := 1,
            security_id := 889126145 }
          1128792064 1705641440) := by decide

/-- Claim C2 (amended): decoding the 16-byte packet
`02 10 00 01 00 00 05 35 00 00 48 43 E0 37 A2 65` returns a Ticker event
whose header has response code 2, message_length 16, exchange segment
NSE_EQ (code 1) and `security_id = 0x35050000 = 889520128`, and whose
payload is `ltp` with bit pattern `0x43480000` (the IEEE-754 encoding of
`200.0`) and `ltt = 0x65A237E0 = 1705129952`. -/
theorem ticker_example_decodes :
    parse_packet [2, 16, 0, 1, 0, 0, 5, 53, 0, 0, 72, 67, 224, 55, 162, 101]
      = .ok (.Ticker
          { response_code := .Ticker, message_length := 16,
            exchange_segment := some .NSE_EQ, exchange_segment_raw := 1,
            security_id := 889520128 }
          1128792064 1705129952) := by decide

-- ===========================================================================
-- Part 2c.  Manager lemmas
-- ===========================================================================

theorem listModify_length {α : Type} (f : α → α) :
    ∀ (l : List α) (j : Nat), (listModify l j f).length = l.length := by
  intro l
  induction l with
  | nil => intro j; rfl
  | cons x xs ih =>
    intro j
    cases j with
    | zero => rfl
    | succ n => simp only [listModify, List.length_cons, ih]

theorem crossKeys_nil : crossKeys [] = [] := rfl

theorem crossKeys_cons (c : ManagedConnection) (cs : List ManagedConnection) :
    crossKeys (c :: cs) = tableKeys c.instruments ++ crossKeys cs := by
  simp [crossKeys]

theorem minIdx_eq_none {l : List Nat} (h : minIdx l = none) : l = [] := by
  cases l with
  | nil => rfl
  | cons x xs =>
    exfalso
    cases hm : minIdx xs with
    | none =>
      simp only [minIdx, hm] at h
      exact Option.noConfusion h
    | some j =>
      simp only [minIdx, hm] at h
      by_cases hx : x ≤ xs.getD j 0
      · rw [if_pos hx] at h
        exact Option.noConfusion h
      · rw [if_neg hx] at h
        exact Option.noConfusion h

/-- `minIdx` returns an in-range index of a minimal element, and the first
such index: every strictly earlier index has a strictly larger load. -/
theorem minIdx_spec :
    ∀ (loads : List Nat) (b : Nat), minIdx loads = some b →
      b < loads.length
      ∧ (∀ j, j < loads.length → loads.getD b 0 ≤ loads.getD j 0)
      ∧ (∀ j, j < b → loads.getD b 0 < loads.getD j 0) := by
  intro loads
  induction loads with
  | nil => intro b h; simp [minIdx] at h
  | cons x xs ih =>
    intro b h
    cases hm : minIdx xs with
    | none =>
      simp only [minIdx, hm] at h
      have hxs : xs = [] := minIdx_eq_none hm
      subst hxs
      cases h
      refine ⟨by simp, ?_, ?_⟩
      · intro j hj
        have hj0 : j = 0 := by
          simp only [List.length_cons, List.length_nil] at hj
          omega
        subst hj0
        simp
      · intro j hj
        omega
    | some j =>
      simp only [minIdx, hm] at h
      obtain ⟨hjlen, hmin, hfirst⟩ := ih j hm
      by_cases hx : x ≤ xs.getD j 0
      · rw [if_pos hx] at h
        cases h
        refine ⟨by simp, ?_, ?_⟩
        · intro j2 hj2
          cases j2 with
          | zero => simp
          | succ j3 =>
            simp only [List.getD_cons_zero, List.getD_cons_succ]
            refine le_trans hx (hmin j3 ?_)
            simp only [List.length_cons] at hj2
            omega
        · intro j2 hj2
          omega
      · rw [if_neg hx] at h
        cases h
        refine ⟨by simp only [List.length_cons]; omega, ?_, ?_⟩
        · intro j2 hj2
          cases j2 with
          | zero =>
            simp only [List.getD_cons_zero, List.getD_cons_succ]
            omega
          | succ j3 =>
            simp only [List.getD_cons_succ]
            refine hmin j3 ?_
            simp only [List.length_cons] at hj2
            omega
        · intro j2 hj2
          cases j2 with
          | zero =>
            simp only [List.getD_cons_zero, List.getD_cons_succ]
            omega
          | succ j3 =>
            simp only [List.getD_cons_succ]
            exact hfirst j3 (by omega)

/-- Success characterisation of the assignment loop: on `Ok pairs`, the
assigned keys are duplicate-free, none was already subscribed, every chosen
slot index is in range, and every requested instrument is either already
subscribed or among the assignments. -/
theorem assignGo_ok_spec (maxPer : Nat) :
    ∀ (insts : List Instrument) (allKeys : List InstrumentKey) (loads : List Nat)
      (pairs : List (Instrument × Nat)),
      assignGo maxPer allKeys loads insts = .ok pairs →
      (pairs.map (fun p => InstrumentKey.fromInstrument p.1)).Nodup
      ∧ (∀ p ∈ pairs, InstrumentKey.fromInstrument p.1 ∉ allKeys)
      ∧ (∀ p ∈ pairs, p.2 < loads.length)
      ∧ (∀ i ∈ insts, InstrumentKey.fromInstrument i ∈ allKeys
          ∨ InstrumentKey.fromInstrument i ∈ pairs.map (fun p => InstrumentKey.fromInstrument p.1)) := by
  intro insts
  induction insts with
  | nil =>
    intro allKeys loads pairs h
    simp only [assignGo] at h
    cases h
    exact ⟨List.nodup_nil, by simp, by simp, by simp⟩
  | cons inst rest ih =>
    intro allKeys loads pairs h
    simp only [assignGo] at h
    by_cases hmem : InstrumentKey.fromInstrument inst ∈ allKeys
    · rw [if_pos hmem] at h
      obtain ⟨h1, h2, h3, h4⟩ := ih allKeys loads pairs h
      refine ⟨h1, h2, h3, ?_⟩
      intro i hi
      rcases List.mem_cons.mp hi with rfl | hi2
      · exact Or.inl hmem
      · exact h4 i hi2
    · rw [if_neg hmem] at h
      cases hmi : minIdx loads with
      | none =>
        simp only [hmi] at h
        exact Except.noConfusion h
      | some b =>
        simp only [hmi] at h
        by_cases hcap : maxPer ≤ loads.getD b 0
        · rw [if_pos hcap] at h
          exact absurd h (by simp)
        · rw [if_neg hcap] at h
          cases hrec : assignGo maxPer (InstrumentKey.fromInstrument inst :: allKeys)
              (loads.set b (loads.getD b 0 + 1)) rest with
          | error e =>
            simp only [hrec] at h
            exact Except.noConfusion h
          | ok tail =>
            simp only [hrec] at h
            cases h
            obtain ⟨h1, h2, h3, h4⟩ := ih _ _ _ hrec
            obtain ⟨hblen, -, -⟩ := minIdx_spec loads b hmi
            refine ⟨?_, ?_, ?_, ?_⟩
            · refine List.nodup_cons.mpr ⟨?_, h1⟩
              intro hmem2
              obtain ⟨p, hp, hpk⟩ := List.mem_map.mp hmem2
              have hin : InstrumentKey.fromInstrument p.1
                  ∈ InstrumentKey.fromInstrument inst :: allKeys := by
                rw [hpk]
                exact List.mem_cons_self _ _
              exact (h2 p hp) hin
            · intro p hp
              rcases List.mem_cons.mp hp with rfl | hp2
              · exact hmem
              · exact fun hin => (h2 p hp2) (List.mem_cons_of_mem _ hin)
            · intro p hp
              rcases List.mem_cons.mp hp with rfl | hp2
              · exact hblen
              · have := h3 p hp2
                simpa [List.length_set] using this
            · intro i hi
              rcases List.mem_cons.mp hi with rfl | hi2
              · exact Or.inr (by simp)
              · rcases h4 i hi2 with hA | hP
                · rcases List.mem_cons.mp hA with heq | hA2
                  · exact Or.inr (by simp [heq])
                  · exact Or.inl hA2
                · exact Or.inr (by simp [List.mem_map] at hP ⊢; exact Or.inr hP)

/-- When the claim-side capacity condition holds, the assignment loop of
the source fails with the capacity error. -/
theorem capacityHit_assignGo (maxPer : Nat) :
    ∀ (insts : List Instrument) (allKeys : List InstrumentKey) (loads : List Nat),
      capacityHit maxPer allKeys loads insts = true →
      assignGo maxPer allKeys loads insts = .error (.InvalidArgument (capacityMsg maxPer)) := by
  intro insts
  induction insts with
  | nil =>
    intro allKeys loads h
    simp [capacityHit] at h
  | cons inst rest ih =>
    intro allKeys loads h
    simp only [capacityHit] at h
    simp only [assignGo]
    by_cases hmem : InstrumentKey.fromInstrument inst ∈ allKeys
    · rw [if_pos hmem] at h
      rw [if_pos hmem]
      exact ih _ _ h
    · rw [if_neg hmem] at h
      rw [if_neg hmem]
      cases hmi : minIdx loads with
      | none =>
        simp only [hmi] at h
        exact absurd h (by simp)
      | some b =>
        simp only [hmi] at h
        simp only [hmi]
        by_cases hcap : maxPer ≤ loads.getD b 0
        · rw [if_pos hcap]
        · rw [if_neg hcap] at h
          rw [if_neg hcap]
          rw [ih _ _ h]

theorem tableKeys_insert_fresh (tbl : SubTable) (k0 : InstrumentKey)
    (v : Instrument × FeedRequestCode) (hfresh : k0 ∉ tableKeys tbl) :
    tableKeys (tableInsert tbl k0 v) = k0 :: tableKeys tbl := by
  simp only [tableInsert, tableKeys, List.map_cons]
  congr 1
  rw [List.filter_eq_self.mpr]
  intro p hp
  simp only [decide_eq_true_eq]
  intro heq
  exact hfresh (heq ▸ List.mem_map_of_mem _ hp)

theorem crossKeys_insert_perm (k0 : InstrumentKey) (v : Instrument × FeedRequestCode) :
    ∀ (conns : List ManagedConnection) (j : Nat), j < conns.length →
      k0 ∉ crossKeys conns →
      (crossKeys (listModify conns j (fun c =>
        { c with instruments := tableInsert c.instruments k0 v }))).Perm
        (k0 :: crossKeys conns) := by
  intro conns
  induction conns with
  | nil =>
    intro j hj
    simp at hj
  | cons c cs ih =>
    intro j hj hfresh
    cases j with
    | zero =>
      simp only [listModify, crossKeys_cons]
      have hf : k0 ∉ tableKeys c.instruments := fun hin =>
        hfresh (by rw [crossKeys_cons]; exact List.mem_append_left _ hin)
      rw [tableKeys_insert_fresh c.instruments k0 v hf, List.cons_append]
    | succ n =>
      simp only [listModify, crossKeys_cons]
      have hfresh2 : k0 ∉ crossKeys cs := fun hin =>
        hfresh (by rw [crossKeys_cons]; exact List.mem_append_right _ hin)
      have hperm := ih n (by simpa using hj) hfresh2
      exact (hperm.append_left (tableKeys c.instruments)).trans List.perm_middle

theorem applyAssignments_nil (conns : List ManagedConnection) (mode : FeedRequestCode) :
    applyAssignments conns mode [] = conns := rfl

theorem applyAssignments_cons (conns : List ManagedConnection) (mode : FeedRequestCode)
    (p : Instrument × Nat) (rest : List (Instrument × Nat)) :
    applyAssignments conns mode (p :: rest)
      = applyAssignments (listModify conns p.2 (fun c =>
          { c with instruments :=
              tableInsert c.instruments (InstrumentKey.fromInstrument p.1) (p.1, mode) }))
          mode rest := rfl

/-- Applying duplicate-free fresh assignments adds exactly the assigned
keys to the cross-slot key multiset. -/
theorem applyAssignments_perm (mode : FeedRequestCode) :
    ∀ (pairs : List (Instrument × Nat)) (conns : List ManagedConnection),
      (∀ p ∈ pairs, p.2 < conns.length) →
      (pairs.map (fun p => InstrumentKey.fromInstrument p.1)).Nodup →
      (∀ p ∈ pairs, InstrumentKey.fromInstrument p.1 ∉ crossKeys conns) →
      (crossKeys (applyAssignments conns mode pairs)).Perm
        (pairs.map (fun p => InstrumentKey.fromInstrument p.1) ++ crossKeys conns) := by
  intro pairs
  induction pairs with
  | nil =>
    intro conns _ _ _
    rw [applyAssignments_nil]
    exact List.Perm.refl _
  | cons p rest ih =>
    intro conns hlen hnodup hfresh
    simp only [List.map_cons, List.cons_append]
    rw [applyAssignments_cons]
    have hstep := crossKeys_insert_perm (InstrumentKey.fromInstrument p.1) (p.1, mode)
      conns p.2 (hlen p (List.mem_cons_self _ _)) (hfresh p (List.mem_cons_self _ _))
    have hnd := hnodup
    simp only [List.map_cons, List.nodup_cons] at hnd
    obtain ⟨hkey_not, hnodup2⟩ := hnd
    have hlen2 : ∀ q ∈ rest, q.2 < (listModify conns p.2 (fun c =>
        { c with instruments :=
            tableInsert c.instruments (InstrumentKey.fromInstrument p.1) (p.1, mode) })).length := by
      intro q hq
      rw [listModify_length]
      exact hlen q (List.mem_cons_of_mem _ hq)
    have hfresh2 : ∀ q ∈ rest, InstrumentKey.fromInstrument q.1
        ∉ crossKeys (listModify conns p.2 (fun c =>
          { c with instruments :=
              tableInsert c.instruments (InstrumentKey.fromInstrument p.1) (p.1, mode) })) := by
      intro q hq hinq
      have hmem2 := hstep.mem_iff.mp hinq
      rcases List.mem_cons.mp hmem2 with heq | hin2
      · exact hkey_not (heq ▸ List.mem_map_of_mem _ hq)
      · exact hfresh q (List.mem_cons_of_mem _ hq) hin2
    have hrest := ih _ hlen2 hnodup2 hfresh2
    exact hrest.trans ((hstep.append_left _).trans List.perm_middle)

theorem tableKeys_remove_sublist (tbl : SubTable) (k0 : InstrumentKey) :
    (tableKeys (tableRemove tbl k0)).Sublist (tableKeys tbl) := by
  simp only [tableKeys, tableRemove]
  exact (List.filter_sublist tbl).map _

theorem crossKeys_remove_sublist :
    ∀ (conns : List ManagedConnection) (j : Nat) (k0 : InstrumentKey),
      (crossKeys (listModify conns j (fun c =>
        { c with instruments := tableRemove c.instruments k0 }))).Sublist (crossKeys conns) := by
  intro conns
  induction conns with
  | nil =>
    intro j k0
    exact List.Sublist.refl _
  | cons c cs ih =>
    intro j k0
    cases j with
    | zero =>
      simp only [listModify, crossKeys_cons]
      exact (tableKeys_remove_sublist _ _).append_right _
    | succ n =>
      simp only [listModify, crossKeys_cons]
      exact (ih n k0).append_left _

theorem applyUnsub_nil (conns : List ManagedConnection) : applyUnsub conns [] = conns := rfl

theorem applyUnsub_cons (conns : List ManagedConnection) (p : Nat × Instrument)
    (rest : List (Nat × Instrument)) :
    applyUnsub conns (p :: rest)
      = applyUnsub (listModify conns p.1 (fun c =>
          { c with instruments :=
              tableRemove c.instruments (InstrumentKey.fromInstrument p.2) })) rest := rfl

theorem crossKeys_applyUnsub_sublist :
    ∀ (pairs : List (Nat × Instrument)) (conns : List ManagedConnection),
      (crossKeys (applyUnsub conns pairs)).Sublist (crossKeys conns) := by
  intro pairs
  induction pairs with
  | nil =>
    intro conns
    exact List.Sublist.refl _
  | cons p rest ih =>
    intro conns
    rw [applyUnsub_cons]
    exact (ih _).trans (crossKeys_remove_sublist conns p.1 _)

theorem crossKeys_map_eq (f : ManagedConnection → ManagedConnection)
    (hf : ∀ c, (f c).instruments = c.instruments) :
    ∀ (conns : List ManagedConnection), crossKeys (conns.map f) = crossKeys conns := by
  intro conns
  induction conns with
  | nil => rfl
  | cons c cs ih => simp only [List.map_cons, crossKeys_cons, hf, ih]

theorem crossKeys_listModify_eq (f : ManagedConnection → ManagedConnection)
    (hf : ∀ c, (f c).instruments = c.instruments) :
    ∀ (conns : List ManagedConnection) (j : Nat),
      crossKeys (listModify conns j f) = crossKeys conns := by
  intro conns
  induction conns with
  | nil => intro j; rfl
  | cons c cs ih =>
    intro j
    cases j with
    | zero => simp only [listModify, crossKeys_cons, hf]
    | succ n => simp only [listModify, crossKeys_cons, ih]

theorem crossKeys_eq_nil_of_empty :
    ∀ (conns : List ManagedConnection), (∀ c ∈ conns, c.instruments = []) →
      crossKeys conns = [] := by
  intro conns
  induction conns with
  | nil => intro _; rfl
  | cons c cs ih =>
    intro hc
    rw [crossKeys_cons, ih (fun c2 h2 => hc c2 (List.mem_cons_of_mem _ h2)),
      hc c (List.mem_cons_self _ _)]
    rfl

theorem subscribe_not_started {m : DhanFeedManager} {insts : List Instrument}
    {mode : FeedRequestCode} (hs : m.started = false) :
    m.subscribe insts mode
      = .error (.InvalidArgument "manager not started — call start() first") := by
  simp [DhanFeedManager.subscribe, hs]

theorem subscribe_error {m : DhanFeedManager} {insts : List Instrument}
    {mode : FeedRequestCode} {e : DhanError} (hs : ¬ m.started = false)
    (h : assign_instruments m insts = .error e) :
    m.subscribe insts mode = .error e := by
  simp [DhanFeedManager.subscribe, hs, h]

theorem subscribe_ok {m : DhanFeedManager} {insts : List Instrument}
    {mode : FeedRequestCode} {pairs : List (Instrument × Nat)} (hs : ¬ m.started = false)
    (h : assign_instruments m insts = .ok pairs) :
    m.subscribe insts mode = .ok
      ({ m with connections := applyAssignments m.connections mode pairs },
       subscribeMsgs m.connections.length mode pairs) := by
  simp [DhanFeedManager.subscribe, hs, h]

theorem unsubscribe_not_started {m : DhanFeedManager} {insts : List Instrument}
    {mode : FeedRequestCode} (hs : m.started = false) :
    m.unsubscribe insts mode = .error (.InvalidArgument "manager not started") := by
  simp [DhanFeedManager.unsubscribe, hs]

theorem unsubscribe_ok {m : DhanFeedManager} {insts : List Instrument}
    {mode : FeedRequestCode} (hs : ¬ m.started = false) :
    m.unsubscribe insts mode = .ok
      ({ m with connections := applyUnsub m.connections (unsubPairs m.connections insts) },
       unsubscribeMsgs m.connections.length mode (unsubPairs m.connections insts)) := by
  simp [DhanFeedManager.unsubscribe, hs]

/-- Every operation preserves the cross-slot no-duplicate invariant. -/
theorem applyOp_nodup (m : DhanFeedManager) (op : MgrOp)
    (hm : (crossKeys m.connections).Nodup) :
    (crossKeys (applyOp m op).connections).Nodup := by
  cases op with
  | start =>
    by_cases hs : m.started = true
    · have hst : m.start = .error (.InvalidArgument "manager already started") := by
        simp [DhanFeedManager.start, hs]
      simp only [applyOp, hst]
      exact hm
    · have hst : m.start = .ok { m with
        connections := m.connections.map (fun c =>
          { c with writerPresent := true, taskAlive := true }),
        started := true } := by
        simp [DhanFeedManager.start, hs]
      simp only [applyOp, hst]
      rw [crossKeys_map_eq (fun c =>
        { c with writerPresent := true, taskAlive := true }) (fun c => rfl)]
      exact hm
  | subscribe insts mode =>
    by_cases hs : m.started = false
    · simp only [applyOp, subscribe_not_started hs]
      exact hm
    · cases hasg : assign_instruments m insts with
      | error e =>
        simp only [applyOp, subscribe_error hs hasg]
        exact hm
      | ok pairs =>
        simp only [applyOp, subscribe_ok hs hasg]
        obtain ⟨h1, h2, h3, h4⟩ := assignGo_ok_spec m.config.max_instruments_per_connection
          insts (crossKeys m.connections) (connLoads m.connections) pairs hasg
        have hlen : ∀ p ∈ pairs, p.2 < m.connections.length := by
          intro p hp
          have h5 := h3 p hp
          simpa [connLoads] using h5
        have hperm := applyAssignments_perm mode pairs m.connections hlen h1 h2
        rw [List.Perm.nodup_iff hperm]
        refine List.Nodup.append h1 hm ?_
        rw [List.disjoint_left]
        intro a ha hacross
        obtain ⟨p, hp, hpk⟩ := List.mem_map.mp ha
        exact h2 p hp (hpk ▸ hacross)
  | unsubscribe insts mode =>
    by_cases hs : m.started = false
    · simp only [applyOp, unsubscribe_not_started hs]
      exact hm
    · simp only [applyOp, unsubscribe_ok hs]
      exact List.Nodup.sublist (crossKeys_applyUnsub_sublist _ _) hm
  | shutdown =>
    simp only [applyOp, DhanFeedManager.shutdown]
    rw [crossKeys_eq_nil_of_empty]
    · exact List.nodup_nil
    · intro c hc2
      obtain ⟨c0, hc0, rfl⟩ := List.mem_map.mp hc2
      rfl
  | reopen j =>
    simp only [applyOp]
    rw [crossKeys_listModify_eq reopenSlot (fun c => rfl)]
    exact hm

-- ===========================================================================
-- Part 2d.  Claim theorems for the manager (C5, C3, C4, C6, C7, C9, C10)
-- ===========================================================================

/-- Claim C5: in every manager state reachable from construction by any
sequence of start, subscribe, unsubscribe and shutdown operations (with
background re-opens also allowed), each subscribed InstrumentKey appears
in the subscription table of exactly one slot: the concatenation of all
slot table keys contains no duplicate key. -/
theorem cross_slot_keys_nodup (config : DhanFeedConfig) (ops : List MgrOp) :
    (crossKeys (runOps config ops).connections).Nodup := by
  have hinit : (crossKeys (DhanFeedManager.new config).connections).Nodup := by
    rw [crossKeys_eq_nil_of_empty]
    · exact List.nodup_nil
    · intro c hc
      obtain ⟨i, hi, rfl⟩ := List.mem_map.mp hc
      rfl
  simp only [runOps]
  suffices h : ∀ (l : List MgrOp) (m0 : DhanFeedManager),
      (crossKeys m0.connections).Nodup →
      (crossKeys (l.foldl applyOp m0).connections).Nodup by
    exact h ops _ hinit
  intro l
  induction l with
  | nil =>
    intro m0 hm0
    exact hm0
  | cons op rest ih =>
    intro m0 hm0
    exact ih _ (applyOp_nodup m0 op hm0)

theorem listModify_map_const {α β : Type} (g : α → β) (f : α → α)
    (hg : ∀ a, g (f a) = g a) :
    ∀ (l : List α) (j : Nat), (listModify l j f).map g = l.map g := by
  intro l
  induction l with
  | nil => intro j; rfl
  | cons x xs ih =>
    intro j
    cases j with
    | zero => simp only [listModify, List.map_cons, hg]
    | succ n => simp only [listModify, List.map_cons, ih]

theorem applyAssignments_rc (mode : FeedRequestCode) :
    ∀ (pairs : List (Instrument × Nat)) (conns : List ManagedConnection),
      (applyAssignments conns mode pairs).map (fun c => c.reconnect_count)
        = conns.map (fun c => c.reconnect_count) := by
  intro pairs
  induction pairs with
  | nil => intro conns; rfl
  | cons p rest ih =>
    intro conns
    have hg : ∀ c : ManagedConnection,
        ({ c with instruments := tableInsert c.instruments (InstrumentKey.fromInstrument p.1) (p.1, mode) } : ManagedConnection).reconnect_count = c.reconnect_count :=
      fun c => rfl
    rw [applyAssignments_cons, ih,
      listModify_map_const (fun c : ManagedConnection => c.reconnect_count)
        (fun c : ManagedConnection => { c with instruments := tableInsert c.instruments (InstrumentKey.fromInstrument p.1) (p.1, mode) })
        hg]

theorem applyUnsub_rc :
    ∀ (pairs : List (Nat × Instrument)) (conns : List ManagedConnection),
      (applyUnsub conns pairs).map (fun c => c.reconnect_count)
        = conns.map (fun c => c.reconnect_count) := by
  intro pairs
  induction pairs with
  | nil => intro conns; rfl
  | cons p rest ih =>
    intro conns
    have hg : ∀ c : ManagedConnection,
        ({ c with instruments := tableRemove c.instruments (InstrumentKey.fromInstrument p.2) } : ManagedConnection).reconnect_count = c.reconnect_count :=
      fun c => rfl
    rw [applyUnsub_cons, ih,
      listModify_map_const (fun c : ManagedConnection => c.reconnect_count)
        (fun c : ManagedConnection => { c with instruments := tableRemove c.instruments (InstrumentKey.fromInstrument p.2) })
        hg]

/-- No operation ever changes any reconnect counter. -/
theorem applyOp_rc (m : DhanFeedManager) (op : MgrOp) :
    (applyOp m op).connections.map (fun c => c.reconnect_count)
      = m.connections.map (fun c => c.reconnect_count) := by
  cases op with
  | start =>
    by_cases hs : m.started = true
    · have hst : m.start = .error (.InvalidArgument "manager already started") := by
        simp [DhanFeedManager.start, hs]
      simp only [applyOp, hst]
    · have hst : m.start = .ok { m with
        connections := m.connections.map (fun c =>
          { c with writerPresent := true, taskAlive := true }),
        started := true } := by
        simp [DhanFeedManager.start, hs]
      simp only [applyOp, hst]
      rw [List.map_map]
      rfl
  | subscribe insts mode =>
    by_cases hs : m.started = false
    · simp only [applyOp, subscribe_not_started hs]
    · cases hasg : assign_instruments m insts with
      | error e => simp only [applyOp, subscribe_error hs hasg]
      | ok pairs =>
        simp only [applyOp, subscribe_ok hs hasg]
        exact applyAssignments_rc mode pairs m.connections
  | unsubscribe insts mode =>
    by_cases hs : m.started = false
    · simp only [applyOp, unsubscribe_not_started hs]
    · simp only [applyOp, unsubscribe_ok hs]
      exact applyUnsub_rc _ m.connections
  | shutdown =>
    simp only [applyOp, DhanFeedManager.shutdown]
    rw [List.map_map]
    rfl
  | reopen j =>
    simp only [applyOp]
    have hg : ∀ c : ManagedConnection,
        (reopenSlot c).reconnect_count = c.reconnect_count := fun c => rfl
    exact listModify_map_const (fun c => c.reconnect_count) reopenSlot hg m.connections j

/-- Claim C3 (code bug): the reconnect counter of every slot is initialised
to zero and never incremented by anything — in particular a successful
re-open of the WebSocket after a stream end or transport error replaces
only the writer handle (the spawned task holds no reference to
`reconnect_count`), so `health()` reports `reconnect_count = 0` for every
slot after any sequence of operations and re-opens, contradicting the
spec sentence that each successful re-open increments the counter. -/
theorem reconnect_count_never_incremented (config : DhanFeedConfig) (ops : List MgrOp) :
    ((runOps config ops).health.connections.all
      (fun c => c.reconnect_count == 0)) = true := by
  have hmap : (runOps config ops).connections.map (fun c => c.reconnect_count)
      = (DhanFeedManager.new config).connections.map (fun c => c.reconnect_count) := by
    simp only [runOps]
    suffices h : ∀ (l : List MgrOp) (m0 : DhanFeedManager),
        (l.foldl applyOp m0).connections.map (fun c => c.reconnect_count)
          = m0.connections.map (fun c => c.reconnect_count) by
      exact h ops _
    intro l
    induction l with
    | nil => intro m0; rfl
    | cons op rest ih =>
      intro m0
      rw [List.foldl_cons, ih, applyOp_rc]
  have hzero : ∀ x ∈ (runOps config ops).connections.map (fun c => c.reconnect_count),
      x = 0 := by
    rw [hmap]
    intro x hx
    obtain ⟨c, hc, rfl⟩ := List.mem_map.mp hx
    obtain ⟨i, hi, rfl⟩ := List.mem_map.mp hc
    rfl
  rw [List.all_eq_true]
  intro c hc
  simp only [DhanFeedManager.health] at hc
  obtain ⟨c0, hc0, rfl⟩ := List.mem_map.mp hc
  simp only [beq_iff_eq]
  exact hzero _ (List.mem_map_of_mem _ hc0)

/-- Claim C4: if, during a subscribe call on a started manager, some
requested instrument is not yet subscribed anywhere while the least-loaded
slot (counting assignments already made in this call) holds
max_instruments_per_connection instruments, then the whole call fails with
InvalidArgument "all connections at capacity (N instruments each)" and the
manager state — every slot subscription table included — is unchanged: no
instrument is added and no subscription message is sent. -/
theorem subscribe_capacity_rejection (m : DhanFeedManager) (insts : List Instrument)
    (mode : FeedRequestCode) (hstart : m.started = true)
    (hcap : capacityHit m.config.max_instruments_per_connection
      (crossKeys m.connections) (connLoads m.connections) insts = true) :
    m.subscribe insts mode
      = .error (.InvalidArgument (capacityMsg m.config.max_instruments_per_connection))
    ∧ applyOp m (.subscribe insts mode) = m := by
  have hs : ¬ m.started = false := by rw [hstart]; simp
  have herr : assign_instruments m insts
      = .error (.InvalidArgument (capacityMsg m.config.max_instruments_per_connection)) :=
    capacityHit_assignGo _ insts _ _ hcap
  constructor
  · exact subscribe_error hs herr
  · simp only [applyOp, subscribe_error hs herr]

/-- Claim C4 (witness): the capacity scenario of the spec — one connection
limited to two instruments, three distinct instruments requested on the
started empty manager. -/
theorem subscribe_capacity_rejection_witness :
    exampleMgrStarted.subscribe [exampleInst "1", exampleInst "2", exampleInst "3"]
        FeedRequestCode.SubscribeTicker
      = .error (.InvalidArgument (capacityMsg 2))
    ∧ applyOp exampleMgrStarted
        (.subscribe [exampleInst "1", exampleInst "2", exampleInst "3"]
          FeedRequestCode.SubscribeTicker)
      = exampleMgrStarted :=
  subscribe_capacity_rejection exampleMgrStarted
    [exampleInst "1", exampleInst "2", exampleInst "3"]
    FeedRequestCode.SubscribeTicker (by rfl) (by decide)

/-- Claim C4 (counterexample): in the capacity scenario the call does fail,
but not with the exact error the claim quotes — the message of the code
carries the limit as a suffix, "all connections at capacity (2 instruments
each)", so the result is not InvalidArgument "all connections at
capacity". -/
theorem capacity_error_message_exact :
    exampleMgrStarted.subscribe [exampleInst "1", exampleInst "2", exampleInst "3"]
        FeedRequestCode.SubscribeTicker
      ≠ .error (.InvalidArgument "all connections at capacity") := by
  have herr : assign_instruments exampleMgrStarted
      [exampleInst "1", exampleInst "2", exampleInst "3"]
      = .error (.InvalidArgument (capacityMsg 2)) :=
    capacityHit_assignGo 2 [exampleInst "1", exampleInst "2", exampleInst "3"]
      (crossKeys exampleMgrStarted.connections)
      (connLoads exampleMgrStarted.connections) (by decide)
  rw [subscribe_error (by decide) herr]
  simp only [ne_eq, Except.error.injEq, DhanError.InvalidArgument.injEq]
  decide

theorem assignGo_skip_all (maxPer : Nat) :
    ∀ (insts : List Instrument) (allKeys : List InstrumentKey) (loads : List Nat),
      (∀ i ∈ insts, InstrumentKey.fromInstrument i ∈ allKeys) →
      assignGo maxPer allKeys loads insts = .ok [] := by
  intro insts
  induction insts with
  | nil => intro allKeys loads _; rfl
  | cons inst rest ih =>
    intro allKeys loads hall
    simp only [assignGo]
    rw [if_pos (hall inst (List.mem_cons_self _ _))]
    exact ih _ _ (fun i hi => hall i (List.mem_cons_of_mem _ hi))

theorem chunksOf_nil {α : Type} (n : Nat) : chunksOf n ([] : List α) = [] := by
  simp [chunksOf]

theorem flatten_map_nil {α β : Type} :
    ∀ (l : List α), (l.map (fun _ => ([] : List β))).flatten = [] := by
  intro l
  induction l with
  | nil => rfl
  | cons x xs ih => simp [ih]

theorem subscribeMsgs_nil (n : Nat) (mode : FeedRequestCode) :
    subscribeMsgs n mode [] = [] := by
  simp only [subscribeMsgs, batchFor, List.filterMap_nil, chunksOf_nil, List.map_nil]
  exact flatten_map_nil _

/-- Claim C6: subscribing the same list twice leaves the same subscription
state as subscribing it once — on the second call every instrument is
already present in some slot table, is skipped silently, is assigned to no
slot, and no outbound message is produced. -/
theorem subscribe_idempotent (m : DhanFeedManager) (S : List Instrument)
    (mode : FeedRequestCode) (hstart : m.started = true) :
    applyOp (applyOp m (.subscribe S mode)) (.subscribe S mode)
      = applyOp m (.subscribe S mode)
    ∧ (∀ m1 msgs, m.subscribe S mode = .ok (m1, msgs) →
        m1.subscribe S mode = .ok (m1, [])) := by
  have hs : ¬ m.started = false := by rw [hstart]; simp
  have hsecond : ∀ m1 msgs, m.subscribe S mode = .ok (m1, msgs) →
      m1.subscribe S mode = .ok (m1, []) := by
    intro m1 msgs hok
    cases hasg : assign_instruments m S with
    | error e =>
      rw [subscribe_error hs hasg] at hok
      exact absurd hok (by simp)
    | ok pairs =>
      rw [subscribe_ok hs hasg] at hok
      simp only [Except.ok.injEq, Prod.mk.injEq] at hok
      obtain ⟨hm1, hmsgs⟩ := hok
      obtain ⟨h1, h2, h3, h4⟩ := assignGo_ok_spec m.config.max_instruments_per_connection
        S (crossKeys m.connections) (connLoads m.connections) pairs hasg
      have hlen : ∀ p ∈ pairs, p.2 < m.connections.length := by
        intro p hp
        have h5 := h3 p hp
        simpa [connLoads] using h5
      have hperm := applyAssignments_perm mode pairs m.connections hlen h1 h2
      have hcov : ∀ i ∈ S, InstrumentKey.fromInstrument i ∈ crossKeys m1.connections := by
        intro i hi
        have hc1 : m1.connections = applyAssignments m.connections mode pairs := by
          rw [← hm1]
        rw [hc1, hperm.mem_iff, List.mem_append]
        rcases h4 i hi with hA | hP
        · exact Or.inr hA
        · exact Or.inl hP
      have hs1 : ¬ m1.started = false := by
        have hst1 : m1.started = m.started := by rw [← hm1]
        rw [hst1]
        exact hs
      have hasg1 : assign_instruments m1 S = .ok [] := assignGo_skip_all _ S _ _ hcov
      rw [subscribe_ok hs1 hasg1, applyAssignments_nil, subscribeMsgs_nil]
  refine ⟨?_, hsecond⟩
  cases hfirst : m.subscribe S mode with
  | error e =>
    simp only [applyOp, hfirst]
  | ok pr =>
    obtain ⟨m1, msgs⟩ := pr
    have h6 := hsecond m1 msgs hfirst
    simp only [applyOp, hfirst, h6]

/-- Claim C6 (witness): idempotence at the concrete one-slot manager. -/
theorem subscribe_idempotent_witness :
    applyOp (applyOp exampleMgrStarted
        (.subscribe [exampleInst "1"] FeedRequestCode.SubscribeTicker))
      (.subscribe [exampleInst "1"] FeedRequestCode.SubscribeTicker)
    = applyOp exampleMgrStarted
        (.subscribe [exampleInst "1"] FeedRequestCode.SubscribeTicker) :=
  (subscribe_idempotent exampleMgrStarted [exampleInst "1"]
    FeedRequestCode.SubscribeTicker (by rfl)).1

/-- Claim C7: when raw frames are enabled (and the raw sender exists), the
reader loop publishes, for every binary frame whose packet parses, the
raw-bytes event strictly before the parsed event of the same frame: the
publication sequence it performs for the frame is exactly the raw
publication followed by the parsed publication. -/
theorem raw_published_before_parsed (data : List Nat) (e : MarketFeedEvent)
    (hok : parse_packet data = .ok e) :
    handleBinaryFrame true true data
      = [Publication.raw data, Publication.parsed e] := by
  simp [handleBinaryFrame, hok]

/-- Claim C7 (witness): the ordering at a concrete ticker frame. -/
theorem raw_published_before_parsed_witness :
    handleBinaryFrame true true [2, 16, 0, 1, 0, 0, 5, 53, 0, 0, 72, 67, 224, 55, 162, 101]
      = [Publication.raw [2, 16, 0, 1, 0, 0, 5, 53, 0, 0, 72, 67, 224, 55, 162, 101],
         Publication.parsed (.Ticker
           { response_code := .Ticker, message_length := 16,
             exchange_segment := some .NSE_EQ, exchange_segment_raw := 1,
             security_id := 889520128 }
           1128792064 1705129952)] :=
  raw_published_before_parsed _ _ (by decide)

/-- Claim C10: instrument assignment is deterministic in the current tables
and the request list; a fresh instrument goes to the first index of
minimal projected load — among equally loaded slots the smallest index
wins — and the chosen slot projected load is incremented before the rest
of the request list is processed. -/
theorem assign_first_min_and_projected (maxPer : Nat) (A : List InstrumentKey)
    (loads : List Nat) (inst : Instrument) (rest : List Instrument) (b : Nat)
    (hfresh : InstrumentKey.fromInstrument inst ∉ A)
    (hmin : minIdx loads = some b)
    (hcap : loads.getD b 0 < maxPer) :
    assignGo maxPer A loads (inst :: rest)
      = (match assignGo maxPer (InstrumentKey.fromInstrument inst :: A)
            (loads.set b (loads.getD b 0 + 1)) rest with
         | .error e => .error e
         | .ok tail => .ok ((inst, b) :: tail))
    ∧ b < loads.length
    ∧ (∀ j, j < loads.length → loads.getD b 0 ≤ loads.getD j 0)
    ∧ (∀ j, j < b → loads.getD b 0 < loads.getD j 0) := by
  obtain ⟨hlen, hle, hlt⟩ := minIdx_spec loads b hmin
  refine ⟨?_, hlen, hle, hlt⟩
  simp only [assignGo, hmin]
  rw [if_neg hfresh, if_neg (show ¬ maxPer ≤ loads.getD b 0 by omega)]

/-- Claim C10 (witness): with equal loads on slots 0 and 1 the fresh
instrument is assigned to slot 0 and the projected load of slot 0 is
incremented. -/
theorem assign_first_min_and_projected_witness :
    assignGo 5000 [] [1, 1] [exampleInst "7"]
      = (match assignGo 5000 [InstrumentKey.fromInstrument (exampleInst "7")]
            ([1, 1].set 0 ([1, 1].getD 0 0 + 1)) [] with
         | .error e => .error e
         | .ok tail => .ok ((exampleInst "7", 0) :: tail))
    ∧ 0 < [1, 1].length
    ∧ (∀ j, j < [1, 1].length → [1, 1].getD 0 0 ≤ [1, 1].getD j 0)
    ∧ (∀ j, j < 0 → [1, 1].getD 0 0 < [1, 1].getD j 0) :=
  assign_first_min_and_projected 5000 [] [1, 1] (exampleInst "7") [] 0
    (by decide) (by decide) (by decide)

theorem listModify_getElem? {α : Type} (f : α → α) :
    ∀ (l : List α) (j i : Nat),
      (listModify l j f)[i]? = if i = j then (l[i]?).map f else l[i]? := by
  intro l
  induction l with
  | nil =>
    intro j i
    simp [listModify]
  | cons x xs ih =>
    intro j i
    cases j with
    | zero =>
      cases i with
      | zero => simp [listModify]
      | succ i2 => simp [listModify]
    | succ n =>
      cases i with
      | zero => simp [listModify]
      | succ i2 =>
        simp only [listModify, List.getElem?_cons_succ]
        rw [ih n i2]
        by_cases h : i2 = n
        · subst h
          simp
        · have h2 : ¬ (i2 + 1 = n + 1) := by omega
          simp [h, h2]

theorem keysAt_eq (conns : List ManagedConnection) (j : Nat) :
    keysAt conns j = ((conns[j]?).map (fun c => tableKeys c.instruments)).getD [] := by
  simp only [keysAt]
  cases conns[j]? <;> rfl

theorem mem_tableKeys_remove {tbl : SubTable} {k0 k : InstrumentKey} :
    k ∈ tableKeys (tableRemove tbl k0) ↔ (k ∈ tableKeys tbl ∧ k ≠ k0) := by
  simp only [tableKeys, tableRemove, List.mem_map, List.mem_filter, decide_eq_true_eq]
  constructor
  · rintro ⟨p, ⟨hp, hne⟩, rfl⟩
    exact ⟨⟨p, hp, rfl⟩, hne⟩
  · rintro ⟨⟨p, hp, rfl⟩, hne⟩
    exact ⟨p, ⟨hp, hne⟩, rfl⟩

theorem mem_keysAt_modifyRemove (conns : List ManagedConnection) (j0 : Nat)
    (k0 : InstrumentKey) (i : Nat) (k : InstrumentKey) :
    k ∈ keysAt (listModify conns j0 (fun c =>
        { c with instruments := tableRemove c.instruments k0 })) i
      ↔ (k ∈ keysAt conns i ∧ ¬ (i = j0 ∧ k = k0)) := by
  rw [keysAt_eq, keysAt_eq, listModify_getElem?]
  by_cases h : i = j0
  · subst h
    rw [if_pos rfl]
    cases hc : conns[i]? with
    | none => simp
    | some c =>
      simp only [Option.map_some', Option.getD_some, mem_tableKeys_remove]
      constructor
      · rintro ⟨hmem, hne⟩
        exact ⟨hmem, fun hand => hne hand.2⟩
      · rintro ⟨hmem, hno⟩
        exact ⟨hmem, fun hk => hno ⟨by trivial, hk⟩⟩
  · rw [if_neg h]
    constructor
    · intro hmem
      exact ⟨hmem, fun hand => h hand.1⟩
    · rintro ⟨hmem, _⟩
      exact hmem

theorem mem_keysAt_applyUnsub :
    ∀ (pairs : List (Nat × Instrument)) (conns : List ManagedConnection)
      (i : Nat) (k : InstrumentKey),
      k ∈ keysAt (applyUnsub conns pairs) i
        ↔ (k ∈ keysAt conns i
           ∧ ¬ ∃ p ∈ pairs, p.1 = i ∧ InstrumentKey.fromInstrument p.2 = k) := by
  intro pairs
  induction pairs with
  | nil =>
    intro conns i k
    rw [applyUnsub_nil]
    simp
  | cons p rest ih =>
    intro conns i k
    rw [applyUnsub_cons, ih, mem_keysAt_modifyRemove]
    constructor
    · rintro ⟨⟨hmem, h1⟩, h2⟩
      refine ⟨hmem, ?_⟩
      rintro ⟨q, hq, hqi, hqk⟩
      rcases List.mem_cons.mp hq with rfl | hq2
      · exact h1 ⟨hqi.symm, hqk.symm⟩
      · exact h2 ⟨q, hq2, hqi, hqk⟩
    · rintro ⟨hmem, hno⟩
      refine ⟨⟨hmem, ?_⟩, ?_⟩
      · rintro ⟨hip, hk⟩
        exact hno ⟨p, List.mem_cons_self _ _, hip.symm, hk.symm⟩
      · rintro ⟨q, hq2, hqi, hqk⟩
        exact hno ⟨q, List.mem_cons_of_mem _ hq2, hqi, hqk⟩

theorem mem_unsubPairs {conns : List ManagedConnection} {insts : List Instrument}
    {j : Nat} {inst : Instrument} :
    (j, inst) ∈ unsubPairs conns insts
      ↔ inst ∈ insts
        ∧ firstConnWith conns (InstrumentKey.fromInstrument inst) = some j := by
  simp only [unsubPairs, List.mem_filterMap]
  constructor
  · rintro ⟨i, hi, hmap⟩
    cases hf : firstConnWith conns (InstrumentKey.fromInstrument i) with
    | none =>
      rw [hf] at hmap
      exact Option.noConfusion hmap
    | some j2 =>
      rw [hf] at hmap
      simp only [Option.map_some', Option.some.injEq, Prod.mk.injEq] at hmap
      obtain ⟨rfl, rfl⟩ := hmap
      exact ⟨hi, hf⟩
  · rintro ⟨hmem, hf⟩
    refine ⟨inst, hmem, ?_⟩
    rw [hf]
    rfl

theorem mem_unsubscribeMsgs_code {n : Nat} {mode : FeedRequestCode}
    {pairs : List (Nat × Instrument)} {msg : OutMessage}
    (h : msg ∈ unsubscribeMsgs n mode pairs) : msg.2.RequestCode = mode.toU8 := by
  simp only [unsubscribeMsgs, List.mem_flatten, List.mem_map] at h
  obtain ⟨l, ⟨j, hj, rfl⟩, hmsg⟩ := h
  obtain ⟨chunk, hchunk, rfl⟩ := List.mem_map.mp hmsg
  rfl

/-- Claim C9: on a started manager, unsubscribe always returns Ok; every
requested instrument present in no slot table is skipped silently; a
requested instrument is removed from the first slot whose table holds its
key, regardless of the subscription mode it was stored with; the mode
argument does not affect the resulting state (only the request code of
the outbound messages). -/
theorem unsubscribe_spec (m : DhanFeedManager) (insts : List Instrument)
    (mode mode2 : FeedRequestCode) (hstart : m.started = true) :
    ∃ m2 msgs msgs2,
      m.unsubscribe insts mode = .ok (m2, msgs)
      ∧ m.unsubscribe insts mode2 = .ok (m2, msgs2)
      ∧ (∀ msg ∈ msgs, msg.2.RequestCode = mode.toU8)
      ∧ (∀ j k, k ∈ keysAt m2.connections j
          ↔ (k ∈ keysAt m.connections j
             ∧ ¬ ((∃ i ∈ insts, InstrumentKey.fromInstrument i = k)
                  ∧ firstConnWith m.connections k = some j))) := by
  have hs : ¬ m.started = false := by rw [hstart]; simp
  refine ⟨_, _, _, unsubscribe_ok hs, unsubscribe_ok hs, ?_, ?_⟩
  · intro msg hmsg
    exact mem_unsubscribeMsgs_code hmsg
  · intro j k
    show k ∈ keysAt (applyUnsub m.connections (unsubPairs m.connections insts)) j ↔ _
    rw [mem_keysAt_applyUnsub]
    constructor
    · rintro ⟨hmem, hno⟩
      refine ⟨hmem, ?_⟩
      rintro ⟨⟨i, hi, hik⟩, hfc⟩
      apply hno
      refine ⟨(j, i), mem_unsubPairs.mpr ⟨hi, ?_⟩, rfl, hik⟩
      rw [hik]
      exact hfc
    · rintro ⟨hmem, hno⟩
      refine ⟨hmem, ?_⟩
      rintro ⟨q, hq, hqj, hqk⟩
      obtain ⟨q1, q2⟩ := q
      simp only at hqj hqk
      subst hqj
      obtain ⟨hq_mem, hq_fc⟩ := mem_unsubPairs.mp hq
      apply hno
      refine ⟨⟨q2, hq_mem, hqk⟩, ?_⟩
      rw [← hqk]
      exact hq_fc

/-- Claim C9 (witness): a two-slot manager holding one Full-mode instrument
on slot 0, asked to unsubscribe that instrument and an absent one in
Ticker mode. -/
theorem unsubscribe_spec_witness :
    ∃ m2 msgs msgs2,
      exampleMgrTwoSlots.unsubscribe [exampleInst "5", exampleInst "404"]
          FeedRequestCode.UnsubscribeTicker = .ok (m2, msgs)
      ∧ exampleMgrTwoSlots.unsubscribe [exampleInst "5", exampleInst "404"]
          FeedRequestCode.UnsubscribeFull = .ok (m2, msgs2)
      ∧ (∀ msg ∈ msgs, msg.2.RequestCode = FeedRequestCode.UnsubscribeTicker.toU8)
      ∧ (∀ j k, k ∈ keysAt m2.connections j
          ↔ (k ∈ keysAt exampleMgrTwoSlots.connections j
             ∧ ¬ ((∃ i ∈ [exampleInst "5", exampleInst "404"],
                    InstrumentKey.fromInstrument i = k)
                  ∧ firstConnWith exampleMgrTwoSlots.connections k = some j))) :=
  unsubscribe_spec exampleMgrTwoSlots [exampleInst "5", exampleInst "404"]
    FeedRequestCode.UnsubscribeTicker FeedRequestCode.UnsubscribeFull (by rfl)
